import Mathlib

/-
  Verification development for the yori file-enumeration subsystem:
  a shallow embedding of lib/fileenum.c (YoriLibForEachFileEnum,
  YoriLibForEachFile, YoriLibDoesFileMatchExpression) and path/path.c
  (the path decomposition in the entry point), together with theorems
  settling the claims about these routines.

  Strings are modelled as lists of wide characters (Str); machine
  integer bitfields as Nat with explicit bit tests.  Platform calls
  performed by the enumerator (FindFirstFile, GetFileAttributes,
  GetFullPathName, the information query behind
  YoriLibUpdateFindDataFromFileInformation, home expansion, the
  cancellation flag and the two callbacks) are an explicit environment
  record.  Callbacks thread a caller state so that stateful callbacks
  are representable, and every run produces an explicit trace of the
  observable events (callback invocations, error-callback invocations,
  recursive descents).
-/

namespace YoriSpec

/-- Wide string, modelled as a list of characters. -/
abbrev Str := List Char

/-- Conversion from a Lean string literal to the model string type. -/
def sl (s : String) : Str := s.data

/-- Modelled from the spec: YoriLibUpcaseChar is outside src; the spec
calls for a culture-independent upcase, which maps the ASCII letters
a..z to A..Z and leaves every other character unchanged. -/
def upcaseChar (c : Char) : Char :=
  if decide ('a' ≤ c) && decide (c ≤ 'z') then Char.ofNat (c.toNat - 32) else c

/-- A character that the matcher treats as a wildcard after upcasing
(the skip loops of YoriLibDoesFileMatchExpression test the upcased
character against the two wildcards). -/
def isWildUp (c : Char) : Bool :=
  decide (upcaseChar c = '*') || decide (upcaseChar c = '?')

/-- Main loop of YoriLibDoesFileMatchExpression (lib/fileenum.c lines
713-797).  The two index counters of the C loop become list suffixes.
The file suffix strictly shortens on every recursive call, so a fuel of
one more than the file-name length makes the fuel-out arm unreachable
(fuel is used only to obtain structural recursion).  Note the C code
increments FileIndex before it inspects the wildcard character, so on
seeing a `*` the current file character has already been consumed; the
forward scan for the literal that follows the `*` starts at the next
file character. -/
def matchAux : Nat → Str → Str → Bool
  | 0, _, _ => false
  | fuel + 1, f :: fs, w :: ws =>
    let cF := upcaseChar f
    let cW := upcaseChar w
    if cW = '?' then matchAux fuel fs ws
    else if cW = '*' then
      match ws.dropWhile isWildUp with
      | [] => true
      | w2 :: rest2 =>
        let cW2 := upcaseChar w2
        match fs.dropWhile (fun c => !(decide (upcaseChar c = cW2))) with
        | [] => false
        | c2 :: rest3 => matchAux fuel (c2 :: rest3) (w2 :: rest2)
    else if cF = cW then matchAux fuel fs ws
    else false
  | _ + 1, f, w => decide (f = []) && decide (w.dropWhile isWildUp = [])

/-- Shallow embedding of YoriLibDoesFileMatchExpression
(lib/fileenum.c lines 699-798): does FileName match the Wildcard
criteria, case-insensitively. -/
def doesFileMatchExpression (fileName wild : Str) : Bool :=
  matchAux (fileName.length + 1) fileName wild

/-! Attribute bits and reparse tags used by the enumerator. -/

/-- FILE_ATTRIBUTE_DIRECTORY. -/
def attrDirectory : Nat := 16

/-- FILE_ATTRIBUTE_REPARSE_POINT. -/
def attrReparsePoint : Nat := 1024

/-- IO_REPARSE_TAG_MOUNT_POINT. -/
def tagMountPoint : Nat := 0xA0000003

/-- IO_REPARSE_TAG_SYMLINK. -/
def tagSymlink : Nat := 0xA000000C

/-- Test of a bit mask inside an attribute word, as the C code does
with a bitwise and against the flag constant. -/
def hasAttr (attrs bit : Nat) : Bool := decide (attrs &&& bit ≠ 0)

/-- One WIN32_FIND_DATA record as the enumerator consumes it: the file
name, the attribute bitfield, dwReserved0 (the reparse tag when the
reparse bit is set), the two size words, and the three timestamps. -/
structure FindData where
  name : Str
  attrs : Nat
  reserved0 : Nat
  sizeHigh : Nat
  sizeLow : Nat
  creationTime : Nat
  lastAccessTime : Nat
  lastWriteTime : Nat
deriving DecidableEq, Repr

/-- Observable events of one enumeration run: a callback invocation
with the composed full path, a failed-enumeration error-callback
invocation, and a recursive descent into a subdirectory (recording the
recurse criteria, the directory entry descended into, and the depth of
the invocation performing the descent). -/
inductive Event where
  | report (fullPath : Str) (data : FindData) (depth : Nat)
  | enumError (path : Str) (code : Nat) (depth : Nat)
  | recurse (criteria : Str) (entry : FindData) (depth : Nat)
deriving DecidableEq, Repr

/-- The result of a run: the boolean the C function returns, the final
callback state, and the trace of observable events in order. -/
structure EnumResult (σ : Type) where
  ok : Bool
  state : σ
  trace : List Event
deriving DecidableEq, Repr

/-- The platform surface the enumerator consumes, plus the two caller
callbacks.  findFirst models FindFirstFile/FindNextFile/FindClose as
the ordered list of entries a search produces (none models
INVALID_HANDLE_VALUE).  getFileAttributes models GetFileAttributes
(none models the -1 failure).  getFullPathName models
YoriLibGetFullPathNameReturnAllocation.  queryFileInformation models
YoriLibUpdateFindDataFromFileInformation, the CreateFile plus
GetFileInformationByHandle query used for volume roots (its result
carries the attributes, sizes and times; the name field is ignored by
the caller, which overwrites it).  expandHome models
YoriLibExpandHomeDirectories (none: nothing to expand).  lastError is
the GetLastError value handed to the error callback.  cancelled models
YoriLibIsOperationCancelled as a predicate on the callback state so
that a callback can set it.  Callbacks thread the state σ. -/
structure Env (σ : Type) where
  findFirst : Str → Option (List FindData)
  getFileAttributes : Str → Option Nat
  getFullPathName : Str → Option Str
  queryFileInformation : Str → Option FindData
  expandHome : Str → Option Str
  lastError : Nat
  cancelled : σ → Bool
  callback : Str → FindData → Nat → σ → Bool × σ
  errorCallback : Option (Str → Nat → Nat → σ → Bool × σ)

/-- The YORILIB_FILEENUM_* match flags as independent booleans. -/
structure MatchFlags where
  returnFiles : Bool
  returnDirectories : Bool
  directoryContents : Bool
  recurseBefore : Bool
  recurseAfter : Bool
  preserveWild : Bool
  includeDotfiles : Bool
  noLinkTraverse : Bool
  basicExpansion : Bool
deriving DecidableEq, Repr

/-! Path predicates.  YoriLibIsSep, YoriLibIsDriveLetterWithColon,
YoriLibIsDriveLetterWithColonAndSlash and
YoriLibIsPrefixedDriveLetterWithColonAndSlash live in yori library
files that are not part of this repository snapshot, so they are
modelled from the spec (section 2, Path Utilities, and the glossary). -/

/-- Modelled from the spec: YoriLibIsSep is outside src; both slash
directions are separators. -/
def isSep (c : Char) : Bool := decide (c = '\\') || decide (c = '/')

/-- An ASCII letter. -/
def isAsciiLetter (c : Char) : Bool :=
  (decide ('a' ≤ c) && decide (c ≤ 'z')) || (decide ('A' ≤ c) && decide (c ≤ 'Z'))

/-- Modelled from the spec: YoriLibIsDriveLetterWithColon is outside
src; a string starting with a drive letter followed by a colon. -/
def isDriveLetterWithColon (s : Str) : Bool :=
  decide (s.length ≥ 2) && isAsciiLetter (s.getD 0 ' ') && decide (s.getD 1 ' ' = ':')

/-- Modelled from the spec: YoriLibIsDriveLetterWithColonAndSlash is
outside src; a drive letter, a colon and a separator. -/
def isDriveLetterWithColonAndSlash (s : Str) : Bool :=
  decide (s.length ≥ 3) && isAsciiLetter (s.getD 0 ' ') &&
    decide (s.getD 1 ' ' = ':') && isSep (s.getD 2 ' ')

/-- Modelled from the spec: the escaped long-form volume root check is
outside src; a `\\?\` escape followed by a drive letter, a colon and a
separator. -/
def isEscDriveColonSlash (s : Str) : Bool :=
  decide (s.length ≥ 7) && decide (s.getD 0 ' ' = '\\') && decide (s.getD 1 ' ' = '\\') &&
    decide (s.getD 2 ' ' = '?') && decide (s.getD 3 ' ' = '\\') &&
    isAsciiLetter (s.getD 4 ' ') && decide (s.getD 5 ' ' = ':') && isSep (s.getD 6 ' ')

/-- Case-insensitive string equality using the modelled upcase, as in
YoriLibCompareStringWithLiteralInsensitiveCount. -/
def insEq (a b : Str) : Bool := decide (a.map upcaseChar = b.map upcaseChar)

/-- The file:/// handling of lib/fileenum.c lines 168-173: the prefix
is skipped when the specification is at least sizeof("file:///") = 9
characters long (the C length comparison uses sizeof, which counts the
terminator) and its first 8 characters equal file:///
case-insensitively. -/
def stripFileUrl (s : Str) : Str :=
  if decide (s.length ≥ 9) && insEq (s.take 8) (sl "file:///") then s.drop 8 else s

/-- Counts the characters of the string before the first occurrence of
one of the stop characters, as YoriLibCountStringNotContainingChars
does. -/
def countNotIn (s : Str) (stop : List Char) : Nat :=
  match s with
  | [] => 0
  | c :: rest => if c ∈ stop then 0 else countNotIn rest stop + 1

/-- The final-separator scan of lib/fileenum.c lines 227-251, walking
backwards from the given index.  Reproduces the x: special case: when
the scan reaches index 1 without having found a separator and the
specification starts with a drive letter and colon, the colon counts
as the final separator.  Returns CharsToFinalSlash and
FinalSlashFound. -/
def finalSlashAux (s : Str) : Nat → Nat × Bool
  | 0 => (0, false)
  | i + 1 =>
    if isSep (s.getD i ' ') then (i + 1, true)
    else if decide (i = 1) && isDriveLetterWithColon s then (2, true)
    else finalSlashAux s i

/-- CharsToFinalSlash and FinalSlashFound for a specification. -/
def finalSlashScan (s : Str) : Nat × Bool := finalSlashAux s s.length

/-- The phase plan of lib/fileenum.c lines 253-256: two phases when any
recursion flag is set, one otherwise. -/
def phasesOf (flags : MatchFlags) : List Nat :=
  if flags.recurseAfter || flags.recurseBefore then [0, 1] else [0]

/-- The per-phase recurse decision of lib/fileenum.c lines 319-332:
with both recursion flags, phase 0 recurses; with only
RECURSE_AFTER_RETURN, phase 1 recurses; with only
RECURSE_BEFORE_RETURN, phase 0 recurses. -/
def computeRecursePhase (flags : MatchFlags) (phase : Nat) : Bool :=
  if flags.recurseAfter && flags.recurseBefore then decide (phase = 0)
  else if flags.recurseAfter then decide (phase = 1)
  else if flags.recurseBefore then decide (phase = 0)
  else false

/-- Is the entry name the . or .. entry (the _tcscmp pair of
lib/fileenum.c lines 391-392). -/
def isDotName (n : Str) : Bool := decide (n = sl ".") || decide (n = sl "..")

/-- The ReportObject computation of lib/fileenum.c lines 382-413:
start from true, clear it for a dot file unless INCLUDE_DOTFILES, then
clear it when the directory bit does not match
RETURN_DIRECTORIES/RETURN_FILES. -/
def reportDecision (flags : MatchFlags) (e : FindData) : Bool :=
  let afterDot := !(isDotName e.name && !flags.includeDotfiles)
  if hasAttr e.attrs attrDirectory then afterDot && flags.returnDirectories
  else afterDot && flags.returnFiles

/-- The IsLink classification of lib/fileenum.c lines 420-427: only
with NO_LINK_TRAVERSE, and only for a reparse point whose tag is the
mount-point or symlink tag. -/
def linkClass (flags : MatchFlags) (e : FindData) : Bool :=
  flags.noLinkTraverse && hasAttr e.attrs attrReparsePoint &&
    (decide (e.reserved0 = tagMountPoint) || decide (e.reserved0 = tagSymlink))

/-- The recurse guard of lib/fileenum.c lines 433-436: not a dot file,
a directory, a recurse phase, and not a link. -/
def shouldRecurse (flags : MatchFlags) (recursePhase : Bool) (e : FindData) : Bool :=
  !isDotName e.name && hasAttr e.attrs attrDirectory && recursePhase && !linkClass flags e

/-- The recurse criteria string built by lib/fileenum.c lines 438-484:
the specification up to the final slash (when one was found), the
child name, a backslash, then with RECURSE_PRESERVE_WILD the original
trailing criteria and otherwise a star. -/
def recurseCriteria (flags : MatchFlags) (effSpec : Str) (ctfs : Nat) (fsf : Bool)
    (name : Str) : Str :=
  (if fsf then effSpec.take ctfs else []) ++ name ++ ['\\'] ++
    (if flags.preserveWild then effSpec.drop ctfs else ['*'])

/-- The report step of lib/fileenum.c lines 499-517: when the object
is to be reported and this is not a recurse phase, compose
parent\name, invoke the callback, and poll the cancellation flag.  The
returned ok is false on callback refusal or cancellation. -/
def reportStep {σ : Type} (env : Env σ) (flags : MatchFlags) (depth : Nat) (parent : Str)
    (recursePhase : Bool) (e : FindData) (s : σ) : EnumResult σ :=
  if reportDecision flags e && !recursePhase then
    let fullPath := parent ++ ['\\'] ++ e.name
    let cb := env.callback fullPath e depth s
    if !cb.1 then ⟨false, cb.2, [Event.report fullPath e depth]⟩
    else if env.cancelled cb.2 then ⟨false, cb.2, [Event.report fullPath e depth]⟩
    else ⟨true, cb.2, [Event.report fullPath e depth]⟩
  else ⟨true, s, []⟩

/-- Processing of one found entry (the body of the do-while of
lib/fileenum.c lines 380-518): the optional recursive descent through
recFn (the reentry into YoriLibForEachFileEnum at Depth + 1), aborting
on its failure, then the report step. -/
def processEntry {σ : Type} (recFn : Str → Nat → σ → EnumResult σ) (env : Env σ)
    (flags : MatchFlags) (depth : Nat) (effSpec : Str) (ctfs : Nat) (fsf : Bool)
    (parent : Str) (recursePhase : Bool) (e : FindData) (s : σ) : EnumResult σ :=
  if shouldRecurse flags recursePhase e then
    let crit := recurseCriteria flags effSpec ctfs fsf e.name
    let r := recFn crit (depth + 1) s
    if r.ok then
      let r2 := reportStep env flags depth parent recursePhase e r.state
      ⟨r2.ok, r2.state, Event.recurse crit e depth :: r.trace ++ r2.trace⟩
    else ⟨false, r.state, Event.recurse crit e depth :: r.trace⟩
  else reportStep env flags depth parent recursePhase e s

/-- The do-while of lib/fileenum.c lines 380-519 over the entries a
find produced, stopping at the first aborting entry. -/
def processEntries {σ : Type} (recFn : Str → Nat → σ → EnumResult σ) (env : Env σ)
    (flags : MatchFlags) (depth : Nat) (effSpec : Str) (ctfs : Nat) (fsf : Bool)
    (parent : Str) (recursePhase : Bool) : List FindData → σ → EnumResult σ
  | [], s => ⟨true, s, []⟩
  | e :: rest, s =>
    let r := processEntry recFn env flags depth effSpec ctfs fsf parent recursePhase e s
    if r.ok then
      let r2 := processEntries recFn env flags depth effSpec ctfs fsf parent recursePhase
        rest r.state
      ⟨r2.ok, r2.state, r.trace ++ r2.trace⟩
    else r

/-- The search string a phase passes to FindFirstFile
(lib/fileenum.c lines 340-351): parent\* for a recurse phase with
RECURSE_PRESERVE_WILD, otherwise parent\ followed by the criteria
after the final slash (or the whole criteria when no slash was
found). -/
def searchStringFor (flags : MatchFlags) (recursePhase : Bool) (fsf : Bool) (parent : Str)
    (effSpec : Str) (ctfs : Nat) : Str :=
  if recursePhase && flags.preserveWild then parent ++ sl "\\*"
  else parent ++ ['\\'] ++ (if fsf then effSpec.drop ctfs else effSpec)

/-- The volume-root synthesis of lib/fileenum.c lines 359-369: when
FindFirstFile failed and the composed path is X:\ (3 characters) or
\\?\X:\ (7 characters), query the root directly and hand back exactly
one record whose name is empty; when the query also fails (or the path
is not a volume root), the find failure stands. -/
def volumeRootSynth {σ : Type} (env : Env σ) (str : Str) : Option (List FindData) :=
  if (decide (str.length = 3) && isDriveLetterWithColonAndSlash str)
      || (decide (str.length = 7) && isEscDriveColonSlash str) then
    match env.queryFileInformation str with
    | some q => some [{ q with name := [] }]
    | none => none
  else none

/-- The outcome of the find-open stage of one phase: the entry list
when FindFirstFile succeeded, the synthesized single record for a
volume root, or none (leading to the error-callback path).  The
volume-root attempt is made only on the non-wild search
(lib/fileenum.c makes it in the else branch of lines 345-370 only). -/
def phaseFindResult {σ : Type} (env : Env σ) (searchStr : Str) (wildSearch : Bool) :
    Option (List FindData) :=
  match env.findFirst searchStr with
  | some entries => some entries
  | none => if wildSearch then none else volumeRootSynth env searchStr

/-- One iteration of the phase loop of lib/fileenum.c lines 317-531.
Returns the phase result and whether the loop breaks afterwards: the
error-callback branch (lines 372-378) always breaks, with ok set to
the callback answer; the entry loop breaks exactly when it aborted;
a find failure without an error callback continues silently. -/
def runOnePhase {σ : Type} (recFn : Str → Nat → σ → EnumResult σ) (env : Env σ)
    (flags : MatchFlags) (depth : Nat) (effSpec : Str) (ctfs : Nat) (fsf : Bool)
    (parent : Str) (phase : Nat) (s : σ) : EnumResult σ × Bool :=
  let recursePhase := computeRecursePhase flags phase
  let wildSearch := recursePhase && flags.preserveWild
  let str := searchStringFor flags recursePhase fsf parent effSpec ctfs
  match phaseFindResult env str wildSearch with
  | some entries =>
    let r := processEntries recFn env flags depth effSpec ctfs fsf parent recursePhase
      entries s
    (r, !r.ok)
  | none =>
    match env.errorCallback with
    | some ec =>
      let a := ec str env.lastError depth s
      (⟨a.1, a.2, [Event.enumError str env.lastError depth]⟩, true)
    | none => (⟨true, s, []⟩, false)

/-- The phase loop of lib/fileenum.c lines 317-531 over the phase
numbers, honouring the break decisions of runOnePhase. -/
def runPhases {σ : Type} (recFn : Str → Nat → σ → EnumResult σ) (env : Env σ)
    (flags : MatchFlags) (depth : Nat) (effSpec : Str) (ctfs : Nat) (fsf : Bool)
    (parent : Str) : List Nat → σ → EnumResult σ
  | [], s => ⟨true, s, []⟩
  | p :: rest, s =>
    let a := runOnePhase recFn env flags depth effSpec ctfs fsf parent p s
    if a.2 then a.1
    else
      let r2 := runPhases recFn env flags depth effSpec ctfs fsf parent rest a.1.state
      ⟨r2.ok, r2.state, a.1.trace ++ r2.trace⟩

/-- Shallow embedding of YoriLibForEachFileEnum (lib/fileenum.c lines
115-539).  The pre-processing strips a file:/// prefix, applies the
Depth = 0 DIRECTORY_CONTENTS rewrite or recursion full-path
normalization (both consulting GetFileAttributes on the original
specification), locates the final slash, resolves the parent full path
(of the directory part, trimmed of a trailing separator unless it is a
bare volume root, or of "."), trims a trailing separator from the
resolution, and then runs the phase loop.  A failed full-path
resolution aborts with false, as the C allocation-or-resolution
failures do.  The recursion of line 486 reenters this function at
Depth + 1 with one unit less fuel; fuel exhaustion reports failure
(every claim proved about this function either holds for all fuel or
supplies enough fuel for the tree at hand). -/
def forEachFileEnum {σ : Type} : Nat → Env σ → Str → MatchFlags → Nat → σ → EnumResult σ
  | 0, _, _, _, _, s => ⟨false, s, []⟩
  | nfuel + 1, env, fileSpec, flags, depth, s0 =>
    let spec1 := stripFileUrl fileSpec
    let spec2opt : Option Str :=
      if decide (depth = 0) then
        if flags.directoryContents then
          match env.getFileAttributes fileSpec with
          | some attrs =>
            if hasAttr attrs attrDirectory then some (spec1 ++ sl "\\*") else some spec1
          | none => some spec1
        else if flags.recurseAfter || flags.recurseBefore then
          match env.getFileAttributes fileSpec with
          | some attrs =>
            if hasAttr attrs attrDirectory then env.getFullPathName spec1 else some spec1
          | none => some spec1
        else some spec1
      else some spec1
    match spec2opt with
    | none => ⟨false, s0, []⟩
    | some effSpec =>
      let scan := finalSlashScan effSpec
      let parentOpt : Option Str :=
        if scan.2 then
          let dp := effSpec.take scan.1
          let dp2 :=
            if (decide (dp.length > 3) || !isDriveLetterWithColonAndSlash dp)
                && decide (dp.length > 1) && isSep (dp.getD (dp.length - 1) ' ') then
              dp.take (dp.length - 1)
            else dp
          env.getFullPathName dp2
        else env.getFullPathName (sl ".")
      match parentOpt with
      | none => ⟨false, s0, []⟩
      | some p0 =>
        let parent :=
          if decide (p0.length > 0) && isSep (p0.getD (p0.length - 1) ' ') then
            p0.take (p0.length - 1)
          else p0
        runPhases (fun sp d st => forEachFileEnum nfuel env sp flags d st) env flags depth
          effSpec scan.1 scan.2 parent (phasesOf flags) s0

/-- The opening curly-brace operator character. -/
def braceOpenChar : Char := Char.ofNat 123

/-- The closing curly-brace operator character. -/
def braceCloseChar : Char := Char.ofNat 125

/-- The comma-separated walk of the brace body performed by the loop
of lib/fileenum.c lines 657-684: each step takes the characters before
the next comma as one alternative and stops when no characters remain
past that comma.  The fuel is one more than the body length, which the
walk cannot exhaust since every step consumes at least one
character. -/
def braceSplitAux : Nat → Str → List Str
  | 0, _ => []
  | fuel + 1, vals =>
    let k := countNotIn vals [',']
    if decide (vals.length ≤ k + 1) then [vals.take k]
    else vals.take k :: braceSplitAux fuel (vals.drop (k + 1))

/-- The list of brace alternatives of a brace body. -/
def braceSplit (vals : Str) : List Str := braceSplitAux (vals.length + 1) vals

/-- The one-step substitution list computed by YoriLibForEachFile
(lib/fileenum.c lines 587-684).  none when no opening operator is
present or when the matching closing operator is missing (the
pass-through cases).  For a bracket operator the C loop sets
MatchValue to one character starting at the bracket body and each
iteration advances the start and decrements the remaining allocated
length, stopping when that length falls to one or below; with an empty
bracket body the allocated length starts at zero, so exactly one
iteration runs and the single substituted character is read from the
position just past the opening bracket, which holds the closing
bracket itself.  Hence max 1 bodyLength iterations, character i taken
at offset i past the opening operator. -/
def substAlternatives (spec : Str) : Option (List Str) :=
  let cto := countNotIn spec [braceOpenChar, '[']
  if decide (cto = spec.length) then none
  else
    let singleCharMode := decide (spec.getD cto ' ' = '[')
    let before := spec.take cto
    let subst := spec.drop (cto + 1)
    let cto2 := countNotIn subst (if singleCharMode then [']'] else [braceCloseChar])
    if decide (cto2 = subst.length) then none
    else
      let after := subst.drop (cto2 + 1)
      if singleCharMode then
        some ((List.range (max 1 cto2)).map (fun i => before ++ [subst.getD i ' '] ++ after))
      else
        some ((braceSplit (subst.take cto2)).map (fun v => before ++ v ++ after))

/-- Sequential execution of the substituted specifications, as the two
loops of lib/fileenum.c lines 639-684 do: run each in turn, abort on
the first failure, and return true when every one succeeded. -/
def runSubsts {σ : Type} (run : Str → σ → EnumResult σ) : List Str → σ → EnumResult σ
  | [], s => ⟨true, s, []⟩
  | t :: rest, s =>
    let r := run t s
    if r.ok then
      let r2 := runSubsts run rest r.state
      ⟨r2.ok, r2.state, r.trace ++ r2.trace⟩
    else r

/-- Shallow embedding of YoriLibForEachFile (lib/fileenum.c lines
566-687).  BASIC_EXPANSION delegates straight to the enumerator.  With
no brace or bracket operator, home expansion is attempted and the
enumerator runs on its result (or on the unchanged specification).
With an operator but no matching closer, the specification passes
through to the enumerator unchanged, without home expansion.
Otherwise each one-step substitution reenters this function (at the
same depth, as the C code does) with one unit less expansion fuel.
Enumerator fuel is threaded unchanged. -/
def forEachFile {σ : Type} : Nat → Nat → Env σ → Str → MatchFlags → Nat → σ → EnumResult σ
  | 0, _, _, _, _, _, s => ⟨false, s, []⟩
  | efuel + 1, nfuel, env, spec, flags, depth, s =>
    if flags.basicExpansion then forEachFileEnum nfuel env spec flags depth s
    else if decide (countNotIn spec [braceOpenChar, '['] = spec.length) then
      match env.expandHome spec with
      | some s2 => forEachFileEnum nfuel env s2 flags depth s
      | none => forEachFileEnum nfuel env spec flags depth s
    else
      match substAlternatives spec with
      | none => forEachFileEnum nfuel env spec flags depth s
      | some alts => runSubsts (fun t st => forEachFile efuel nfuel env t flags depth st) alts s

/-- Does a trace event record a recursive descent into an entry whose
attributes carry the reparse bit with the mount-point or symlink
tag. -/
def eventRecursesIntoLink : Event → Bool
  | Event.recurse _ e _ =>
    hasAttr e.attrs attrReparsePoint &&
      (decide (e.reserved0 = tagMountPoint) || decide (e.reserved0 = tagSymlink))
  | _ => false

/-! The path decomposition performed by the entry point of path/path.c
(lines 285-522), on the resolved path string that
YoriLibUserStringToSingleFilePath produced.  The YORI_STRING length
reductions never rewrite the underlying buffer, and the UNC walks of
lines 408-416 and 485-493 run to the terminator of that buffer, so the
model keeps the original string alongside the trimmed views. -/

/-- The decomposed path components.  Each component is the observable
slice content; extensionFound and fileFound record whether the
extension and file-name start pointers were set (path/path.c tests the
pointers, not the lengths, in lines 364 and 456/473). -/
structure PathComponents where
  entire : Str
  entireNoSlash : Str
  extensionFound : Bool
  extension : Str
  fileFound : Bool
  fullFileName : Str
  baseName : Str
  pathFromRoot : Str
  driveLetter : Str
  shareName : Str
  parentName : Str
deriving DecidableEq, Repr

/-- The trailing-backslash trim loops of path/path.c lines 314-324 and
333-343: starting from the given length, repeatedly drop a trailing
backslash while the index of the last character stays above the keep
boundary.  Returns the reduced length. -/
def trimLen (s : Str) (keep : Nat) : Nat → Nat
  | 0 => 0
  | l + 1 =>
    if decide (l > keep) && decide (s.getD l ' ' = '\\') then trimLen s keep l else l + 1

/-- The outcome of the backwards file scan of path/path.c lines
349-379. -/
structure FileScanRes where
  extFound : Bool
  extension : Str
  fileFound : Bool
  fullFileName : Str
  baseName : Str
  parentName : Str
deriving DecidableEq, Repr

/-- The backwards walk of path/path.c lines 349-379 from index i down
to 0.  At each index, a dot seen before any backslash (and before a
previous dot) starts the extension; a backslash starts the file name,
derives the base name (trimming the extension and its dot only when
the extension pointer was set, the pointer test of line 364) and the
parent, and stops the scan. -/
def fileScanAux (e : Str) : Nat → Bool → Str → FileScanRes
  | 0, extFound, ext =>
    let c := e.getD 0 ' '
    let hit := decide (c = '.') && !extFound
    let ef2 := hit || extFound
    let ex2 := if hit then e.drop 1 else ext
    if decide (c = '\\') then
      let full := e.drop 1
      let base := if ef2 then full.take (full.length - (ex2.length + 1)) else full
      ⟨ef2, ex2, true, full, base, e.take 0⟩
    else ⟨ef2, ex2, false, [], [], []⟩
  | i + 1, extFound, ext =>
    let c := e.getD (i + 1) ' '
    let hit := decide (c = '.') && !extFound
    let ef2 := hit || extFound
    let ex2 := if hit then e.drop (i + 2) else ext
    if decide (c = '\\') then
      let full := e.drop (i + 2)
      let base := if ef2 then full.take (full.length - (ex2.length + 1)) else full
      ⟨ef2, ex2, true, full, base, e.take (i + 1)⟩
    else fileScanAux e i ef2 ex2

/-- The file-name and extension scan over the trimmed natural path. -/
def fileScan (e : Str) : FileScanRes :=
  if decide (e.length = 0) then ⟨false, [], false, [], [], []⟩
  else fileScanAux e (e.length - 1) false []

/-- The forward server-name walk of path/path.c lines 408-416 and
485-493 over the original buffer: from the start index, stop at the
second backslash or at the terminator.  Returns the stop index and
whether the end of the server name was seen.  The fuel equals the
buffer length, which the walk cannot exhaust. -/
def uncWalkAux (orig : Str) : Nat → Nat → Bool → Nat × Bool
  | 0, i, found => (i, found)
  | fuel + 1, i, found =>
    if decide (i < orig.length) then
      if decide (orig.getD i ' ' = '\\') then
        if found then (i, true) else uncWalkAux orig fuel (i + 1) true
      else uncWalkAux orig fuel (i + 1) found
    else (i, found)

/-- The server-name walk from a start index. -/
def uncWalk (orig : Str) (start : Nat) : Nat × Bool :=
  uncWalkAux orig orig.length start false

/-- Modelled from the spec: YoriLibIsFullPathUnc is outside src; a
path in the escaped long UNC form starting with \\?\UNC\
(case-insensitively). -/
def isFullPathUnc (s : Str) : Bool :=
  decide (s.length ≥ 8) && insEq (s.take 8) (sl "\\\\?\\UNC\\")

/-- The share-name section of path/path.c (lines 418-443 for the long
form starting at index 8, lines 495-520 for the short form starting at
index 2): walk to the end of the share, record it, then either record
the path from the root (when the share plus the scanned file name
leave room for one), or clear the file name, base name and extension
(when share length plus file-name length exceeds the trimmed length,
meaning the supposed file name is the trailing component of the
share), or leave everything as is on exact equality. -/
def applyShare (orig entire : Str) (c : PathComponents) (start : Nat) : PathComponents :=
  let w := uncWalk orig start
  if decide (w.1 < orig.length) || w.2 then
    let share := orig.take w.1
    let c2 := { c with shareName := share }
    if decide (share.length + c.fullFileName.length < entire.length) then
      { c2 with pathFromRoot :=
          (orig.drop w.1).take (entire.length - share.length - c.fullFileName.length - 1) }
    else if decide (share.length + c.fullFileName.length > entire.length) then
      { c2 with baseName := [], fullFileName := [], extension := [] }
    else c2
  else c

/-- Shallow embedding of the decomposition performed by the path
entry point (path/path.c lines 285-522) on the resolved path orig,
with the -e long-path switch as useLongPath.  none models the
EXIT_FAILURE return for a long-form path shorter than four
characters. -/
def decompose (orig : Str) (useLongPath : Bool) : Option PathComponents :=
  let keep :=
    if useLongPath then (if isEscDriveColonSlash orig then 7 else 0)
    else (if isDriveLetterWithColonAndSlash orig then 3 else 0)
  let entire := orig.take (trimLen orig keep orig.length)
  let entireNoSlash := entire.take (trimLen entire 0 entire.length)
  let scan := fileScan entire
  let c0 : PathComponents :=
    ⟨entire, entireNoSlash, scan.extFound, scan.extension, scan.fileFound,
      scan.fullFileName, scan.baseName, [], [], [], scan.parentName⟩
  if useLongPath then
    if decide (entire.length < 4) then none
    else
      let pap := entire.drop 4
      if isFullPathUnc entire then some (applyShare orig entire c0 8)
      else if isDriveLetterWithColonAndSlash pap then
        some { c0 with
          driveLetter := (entire.drop 4).take 1
          pathFromRoot := (entire.drop 6).take
            ((entire.length - 6) - (if scan.fileFound then scan.fullFileName.length + 1 else 0)) }
      else some c0
  else
    if isDriveLetterWithColonAndSlash entire then
      some { c0 with
        driveLetter := entire.take 1
        pathFromRoot := (entire.drop 2).take
          ((entire.length - 2) - (if scan.fileFound then scan.fullFileName.length + 1 else 0)) }
    else if decide (orig.getD 0 ' ' = '\\') || decide (orig.getD 1 ' ' = '\\') then
      some (applyShare orig entire c0 2)
    else some c0

/-! Concrete fixtures used by witnesses and counterexamples. -/

/-- An error callback that always answers true (continue). -/
def ecTrue {σ : Type} : Str → Nat → Nat → σ → Bool × σ := fun _ _ _ s => (true, s)

/-- A match callback that always answers true (continue). -/
def cbTrue {σ : Type} : Str → FindData → Nat → σ → Bool × σ := fun _ _ _ s => (true, s)

/-- A plain file entry named a.c (FILE_ATTRIBUTE_NORMAL). -/
def entryFileA : FindData := ⟨sl "a.c", 128, 0, 0, 0, 0, 0, 0⟩

/-- A plain file entry named x.txt. -/
def entryTxt : FindData := ⟨sl "x.txt", 128, 0, 0, 0, 0, 0, 0⟩

/-- A directory entry named ld that is a reparse point with the
symlink tag. -/
def entryLink : FindData := ⟨sl "ld", 1040, tagSymlink, 0, 0, 0, 0, 0⟩

/-- The information record the volume-root query returns in the C5
fixture (directory plus hidden plus system attributes, sizes and
times). -/
def volInfo : FindData := ⟨sl "ignored", 22, 0, 0, 0, 11, 12, 13⟩

/-- All flags clear. -/
def flagsNone : MatchFlags := ⟨false, false, false, false, false, false, false, false, false⟩

/-- RETURN_FILES with RECURSE_BEFORE_RETURN and RECURSE_PRESERVE_WILD:
the recurse phase searches parent\* while the report phase searches
the original criteria, so the two phases consult different find
strings. -/
def flagsC1 : MatchFlags := ⟨true, false, false, true, false, true, false, false, false⟩

/-- RETURN_FILES only. -/
def flagsC6 : MatchFlags := ⟨true, false, false, false, false, false, false, false, false⟩

/-- RETURN_DIRECTORIES with RECURSE_BEFORE_RETURN and
NO_LINK_TRAVERSE. -/
def flagsC4 : MatchFlags := ⟨false, true, false, true, false, false, false, true, false⟩

/-- Environment for the C1 run: the wild search C:\d\* fails, the
criteria search C:\d\*.c holds one file, the error callback always
continues. -/
def envC1 : Env Unit := {
  findFirst := fun q => if q = sl "C:\\d\\*.c" then some [entryFileA] else none
  getFileAttributes := fun _ => none
  getFullPathName := fun s => some s
  queryFileInformation := fun _ => none
  expandHome := fun _ => none
  lastError := 5
  cancelled := fun _ => false
  callback := cbTrue
  errorCallback := some ecTrue }

/-- Environment for the C6 run: the directory C:\a[b] holds one file,
the directory C:\ab does not exist, no error callback. -/
def envC6 : Env Unit := {
  findFirst := fun q => if q = sl "C:\\a[b]\\*" then some [entryTxt] else none
  getFileAttributes := fun _ => none
  getFullPathName := fun s => some s
  queryFileInformation := fun _ => none
  expandHome := fun _ => none
  lastError := 2
  cancelled := fun _ => false
  callback := cbTrue
  errorCallback := none }

/-- Environment for the C4 run: the directory C:\d holds one symlink
reparse directory entry. -/
def envC4 : Env Unit := {
  findFirst := fun q => if q = sl "C:\\d\\*" then some [entryLink] else none
  getFileAttributes := fun _ => none
  getFullPathName := fun s => some s
  queryFileInformation := fun _ => none
  expandHome := fun _ => none
  lastError := 3
  cancelled := fun _ => false
  callback := cbTrue
  errorCallback := none }

/-- The decomposition of C:\a\b.txt, the C9 witness input. -/
def pathC9 : PathComponents :=
  ⟨sl "C:\\a\\b.txt", sl "C:\\a\\b.txt", true, sl "txt", true, sl "b.txt", sl "b",
    sl "\\a", sl "C", [], sl "C:\\a"⟩

/-- The decomposition of \\?\UNC\srv\share with the long-path switch,
the C7 example input: the share takes the whole path and the file-name
fields are cleared. -/
def pathC7 : PathComponents :=
  ⟨sl "\\\\?\\UNC\\srv\\share", sl "\\\\?\\UNC\\srv\\share", false, [], true, [], [], [],
    [], sl "\\\\?\\UNC\\srv\\share", sl "\\\\?\\UNC\\srv"⟩

/-- Environment for the C5 run: every find fails and the volume root
C:\ answers the information query. -/
def envC5 : Env Unit := {
  findFirst := fun _ => none
  getFileAttributes := fun _ => none
  getFullPathName := fun s => some s
  queryFileInformation := fun q => if q = sl "C:\\" then some volInfo else none
  expandHome := fun _ => none
  lastError := 5
  cancelled := fun _ => false
  callback := cbTrue
  errorCallback := none }

/-! Theorems. -/

/-- Running a single substituted specification is the same as running
it directly: the substitution loop forwards its failure and otherwise
returns true with its state and trace. -/
theorem runSubsts_singleton {σ : Type} (run : Str → σ → EnumResult σ) (t : Str) (s : σ) :
    runSubsts run [t] s = run t s := by
  simp only [runSubsts]
  cases h : run t s with
  | mk ok st tr => cases ok <;> simp [runSubsts]

/-- C2 counterexample: the claim asserts matches("abc", "a*b*c") ==
true, but the embedded matcher answers false on exactly this input:
the matcher consumes the name character under the `*` before it scans
for the literal that follows, so the b of abc is consumed by the star
and the literal b is not found in the remaining c. -/
theorem C2_counterexample :
    ¬ (doesFileMatchExpression (sl "abc") (sl "a*b*c") = true) := by decide

/-- C2 amended: matches("abc", "a*b*c") == false, because a `*`
followed by a literal consumes at least one character of the name
before the scan for that literal begins. -/
theorem C2_theorem : doesFileMatchExpression (sl "abc") (sl "a*b*c") = false := by decide

/-- C8 counterexample: the claim asserts matches("file", "f??e") ==
false, but the embedded matcher answers true on exactly this input. -/
theorem C8_counterexample :
    ¬ (doesFileMatchExpression (sl "file") (sl "f??e") = false) := by decide

/-- C8 amended: matches("file", "f??e") == true; each `?` consumes
exactly one character of the name, and f-i-l-e aligns with f-?-?-e. -/
theorem C8_theorem : doesFileMatchExpression (sl "file") (sl "f??e") = true := by decide

/-- C7 counterexample: the claim asserts the decomposer clears
baseName, fullFileName and extension exactly when share.length +
fullFileName.length equals entire.length.  For \\?\UNC\srv\share the
file scan finds fullFileName share (5 characters), the share walk
takes the whole 17-character path, 17 + 5 is not 17, and yet the
decomposer clears the file name: the code guard is a strict
greater-than comparison (path/path.c line 438), not equality. -/
theorem C7_counterexample :
    (decompose (sl "\\\\?\\UNC\\srv\\share") true).map PathComponents.fullFileName
        = some [] ∧
      (decompose (sl "\\\\?\\UNC\\srv\\share") true).map PathComponents.shareName
        = some (sl "\\\\?\\UNC\\srv\\share") ∧
      (fileScan (sl "\\\\?\\UNC\\srv\\share")).fullFileName = sl "share" ∧
      ¬ ((sl "\\\\?\\UNC\\srv\\share").length
            + (fileScan (sl "\\\\?\\UNC\\srv\\share")).fullFileName.length
          = (sl "\\\\?\\UNC\\srv\\share").length) := by decide

/-- The applyShare adjustment never touches the entire path. -/
theorem applyShare_entire (orig entire : Str) (c : PathComponents) (start : Nat) :
    (applyShare orig entire c start).entire = c.entire := by
  simp only [applyShare]
  split
  · split
    · rfl
    · split <;> rfl
  · rfl

/-- When the server-name walk neither stopped inside the buffer nor
saw the end of the server name, the share section leaves the
components untouched. -/
theorem applyShare_of_walk_fail (orig entire : Str) (c : PathComponents) (start : Nat)
    (hw : ¬ ((decide ((uncWalk orig start).1 < orig.length) || (uncWalk orig start).2)
      = true)) :
    applyShare orig entire c start = c := by
  simp only [applyShare]
  rw [if_neg hw]

/-- The exact clearing behaviour of the share section, for a component
record whose file fields came from the file scan of the trimmed path
and whose share is still unset (the state in which the decomposer
invokes it): whenever the resulting share is nonempty, the file name,
base name and extension are cleared exactly when the share length plus
the scanned file-name length exceeds the trimmed length, and are left
at the scanned values otherwise. -/
theorem applyShare_exact (orig E : Str) (c0 : PathComponents) (start : Nat)
    (hent : c0.entire = E)
    (hfull : c0.fullFileName = (fileScan E).fullFileName)
    (hbase : c0.baseName = (fileScan E).baseName)
    (hext : c0.extension = (fileScan E).extension)
    (hsh : c0.shareName = [])
    (h2 : (applyShare orig E c0 start).shareName ≠ []) :
    ((applyShare orig E c0 start).shareName.length
          + (fileScan (applyShare orig E c0 start).entire).fullFileName.length
        > (applyShare orig E c0 start).entire.length →
      (applyShare orig E c0 start).fullFileName = []
        ∧ (applyShare orig E c0 start).baseName = []
        ∧ (applyShare orig E c0 start).extension = []) ∧
    ((applyShare orig E c0 start).shareName.length
          + (fileScan (applyShare orig E c0 start).entire).fullFileName.length
        ≤ (applyShare orig E c0 start).entire.length →
      (applyShare orig E c0 start).fullFileName
          = (fileScan (applyShare orig E c0 start).entire).fullFileName
        ∧ (applyShare orig E c0 start).baseName
          = (fileScan (applyShare orig E c0 start).entire).baseName
        ∧ (applyShare orig E c0 start).extension
          = (fileScan (applyShare orig E c0 start).entire).extension) := by
  have hE : (applyShare orig E c0 start).entire = E := by
    rw [applyShare_entire, hent]
  rw [hE, ← hfull, ← hbase, ← hext]
  by_cases hw : (decide ((uncWalk orig start).1 < orig.length) || (uncWalk orig start).2)
      = true
  · simp only [applyShare]
    rw [if_pos hw]
    split
    next hlt =>
      have hlt2 := of_decide_eq_true hlt
      constructor
      · intro hgt
        simp only at hgt
        exact absurd hgt (by omega)
      · intro hle
        exact ⟨rfl, rfl, rfl⟩
    next hnlt =>
      split
      next hgt0 =>
        have hgt2 := of_decide_eq_true hgt0
        constructor
        · intro hgt
          exact ⟨rfl, rfl, rfl⟩
        · intro hle
          simp only at hle
          exact absurd hle (by omega)
      next hngt =>
        have hnlt2 : ¬ ((List.take (uncWalk orig start).1 orig).length
            + c0.fullFileName.length < E.length) := fun hx =>
          hnlt (decide_eq_true hx)
        have hngt2 : ¬ ((List.take (uncWalk orig start).1 orig).length
            + c0.fullFileName.length > E.length) := fun hx =>
          hngt (decide_eq_true hx)
        constructor
        · intro hgt
          simp only at hgt
          exact absurd hgt (by omega)
        · intro hle
          exact ⟨rfl, rfl, rfl⟩
  · rw [applyShare_of_walk_fail orig E c0 start hw] at h2
    exact absurd hsh h2

/-- C7 amended: for every decomposed path in which the share section
set a share (both UNC forms, with or without the long-path switch),
the decomposer clears baseName, fullFileName and extension exactly
when share.length plus the file-scan fullFileName.length exceeds
entire.length, and leaves all three at the scanned values otherwise;
in particular for \\?\UNC\srv\share the share is the entire path and
fullFileName and pathFromRoot are left empty. -/
theorem C7_theorem :
    (∀ (orig : Str) (ulp : Bool) (c : PathComponents),
        decompose orig ulp = some c → c.shareName ≠ [] →
        ((c.shareName.length + (fileScan c.entire).fullFileName.length > c.entire.length →
            c.fullFileName = [] ∧ c.baseName = [] ∧ c.extension = []) ∧
          (c.shareName.length + (fileScan c.entire).fullFileName.length ≤ c.entire.length →
            c.fullFileName = (fileScan c.entire).fullFileName
              ∧ c.baseName = (fileScan c.entire).baseName
              ∧ c.extension = (fileScan c.entire).extension))) ∧
      decompose (sl "\\\\?\\UNC\\srv\\share") true = some pathC7 := by
  constructor
  · intro orig ulp c h1 h2
    cases ulp with
    | false =>
      simp only [decompose, Bool.false_eq_true, if_false] at h1
      repeat' split at h1
      all_goals first
        | exact Option.noConfusion h1
        | (rw [Option.some.injEq] at h1
           subst h1
           first
             | exact applyShare_exact _ _ _ _ rfl rfl rfl rfl rfl h2
             | exact absurd rfl h2)
    | true =>
      simp only [decompose, eq_self_iff_true, if_true] at h1
      repeat' split at h1
      all_goals first
        | exact Option.noConfusion h1
        | (rw [Option.some.injEq] at h1
           subst h1
           first
             | exact applyShare_exact _ _ _ _ rfl rfl rfl rfl rfl h2
             | exact absurd rfl h2)
  · decide

/-- C7 witness: at \\?\UNC\srv\share the share plus the scanned file
name exceed the path length and the three file fields are cleared. -/
theorem C7_witness :
    pathC7.shareName.length + (fileScan pathC7.entire).fullFileName.length
        > pathC7.entire.length ∧
      pathC7.fullFileName = [] ∧ pathC7.baseName = [] ∧ pathC7.extension = [] :=
  ⟨by decide,
    (C7_theorem.1 (sl "\\\\?\\UNC\\srv\\share") true pathC7 (by decide)
      (by decide)).1 (by decide)⟩

/-- Counting to the first stop character across a stop-free prefix:
the count is the length of that prefix. -/
theorem countNotIn_append (b : Str) (x : Char) (t : Str) (stop : List Char)
    (hb : ∀ c ∈ b, c ∉ stop) (hx : x ∈ stop) :
    countNotIn (b ++ x :: t) stop = b.length := by
  induction b with
  | nil => simp [countNotIn, hx]
  | cons c bs ih =>
    have hc : c ∉ stop := hb c (by simp)
    simp only [List.cons_append, countNotIn, if_neg hc, List.length_cons, List.append_eq]
    rw [ih (fun d hd => hb d (by simp [hd]))]

/-- The character just past a prefix of an append. -/
theorem getD_append_len (b : Str) (x : Char) (t : Str) (d : Char) :
    (b ++ x :: t).getD b.length d = x := by
  induction b with
  | nil => rfl
  | cons c bs ih =>
    simp only [List.cons_append, List.length_cons, List.getD_cons_succ]
    exact ih

/-- Dropping a prefix of an append plus one more character. -/
theorem drop_append_len_succ (b : Str) (x : Char) (t : Str) :
    (b ++ x :: t).drop (b.length + 1) = t := by
  induction b with
  | nil => rfl
  | cons c bs ih =>
    simp only [List.cons_append, List.length_cons]
    exact ih

/-- Taking exactly the prefix of an append. -/
theorem take_append_len (b y : Str) : (b ++ y).take b.length = b := by
  induction b with
  | nil => rfl
  | cons c bs ih =>
    simp only [List.cons_append, List.length_cons, List.take_succ_cons, List.cons.injEq,
      true_and]
    exact ih

/-- C10: for every pattern whose first brace or bracket operator is an
empty bracket group — every pattern of the form before ++ [] ++ rest
with no operator character in before — the expander computes exactly
one substitution rather than zero alternatives, taking the single
substituted character from the position immediately after the opening
bracket, which holds the closing bracket itself, so the sole
sub-pattern is before ++ ] ++ rest; and running the expander on the
pattern is the same as running it on that sub-pattern (with one unit
less expansion fuel, which the substitution consumed). -/
theorem C10_theorem (b rest : Str) (hb : ∀ c ∈ b, c ∉ [braceOpenChar, '[']) :
    substAlternatives (b ++ '[' :: ']' :: rest) = some [b ++ ']' :: rest] ∧
      ∀ (σ : Type) (efuel nfuel : Nat) (env : Env σ)
        (rf rd dc rb ra pw idf nlt : Bool) (depth : Nat) (s : σ),
        forEachFile (efuel + 1) nfuel env (b ++ '[' :: ']' :: rest)
            ⟨rf, rd, dc, rb, ra, pw, idf, nlt, false⟩ depth s
          = forEachFile efuel nfuel env (b ++ ']' :: rest)
            ⟨rf, rd, dc, rb, ra, pw, idf, nlt, false⟩ depth s := by
  have hcnt : countNotIn (b ++ '[' :: ']' :: rest) [braceOpenChar, '['] = b.length :=
    countNotIn_append b '[' (']' :: rest) _ hb (by decide)
  have hlen : (b ++ '[' :: ']' :: rest).length = b.length + rest.length + 2 := by
    simp [List.length_append]
    omega
  have hne : ¬ (decide (countNotIn (b ++ '[' :: ']' :: rest) [braceOpenChar, '[']
      = (b ++ '[' :: ']' :: rest).length) = true) := by
    simp only [hcnt, hlen, decide_eq_true_eq]
    omega
  have hget : (b ++ '[' :: ']' :: rest).getD
      (countNotIn (b ++ '[' :: ']' :: rest) [braceOpenChar, '[']) ' ' = '[' := by
    rw [hcnt]
    exact getD_append_len b '[' (']' :: rest) ' '
  have hdrop : (b ++ '[' :: ']' :: rest).drop
      (countNotIn (b ++ '[' :: ']' :: rest) [braceOpenChar, '['] + 1) = ']' :: rest := by
    rw [hcnt]
    exact drop_append_len_succ b '[' (']' :: rest)
  have htake : (b ++ '[' :: ']' :: rest).take
      (countNotIn (b ++ '[' :: ']' :: rest) [braceOpenChar, '[']) = b := by
    rw [hcnt]
    exact take_append_len b _
  have hsome : substAlternatives (b ++ '[' :: ']' :: rest) = some [b ++ ']' :: rest] := by
    simp only [substAlternatives]
    rw [if_neg hne, hget, hdrop, htake]
    simp [countNotIn, (by decide : List.range 1 = [0])]
  refine ⟨hsome, ?_⟩
  intro σ efuel nfuel env rf rd dc rb ra pw idf nlt depth s
  simp only [forEachFile, Bool.false_eq_true, if_false]
  rw [if_neg hne, hsome]
  exact runSubsts_singleton _ _ _

/-- C10 witness: the empty-bracket expansion at a[]b, whose sole
sub-pattern is a]b, with the run equality over the C6 environment. -/
theorem C10_witness :
    substAlternatives (sl "a[]b") = some [sl "a]b"] ∧
      forEachFile 3 2 envC6 (sl "a[]b") flagsC6 1 ()
        = forEachFile 2 2 envC6 (sl "a]b") flagsC6 1 () :=
  have h := C10_theorem (sl "a") (sl "b") (by decide)
  ⟨h.1, h.2 Unit 2 2 envC6 true false false false false false false false 1 ()⟩

/-- C6 counterexample: the claim asserts that, for every recurse
criteria, invoking the Pattern Expander and invoking the Enumerator
are observably equivalent, including when the subdirectory name
contains bracket characters.  For the criteria C:\a[b]\* (as built for
a subdirectory named a[b]) over a filesystem in which C:\a[b] holds
one file x.txt and C:\ab does not exist, the Enumerator reports the
file while the Expander rewrites the criteria to C:\ab\* and reports
nothing — and the source calls the Enumerator (lib/fileenum.c line
486), not the Expander. -/
theorem C6_counterexample :
    forEachFileEnum 2 envC6 (sl "C:\\a[b]\\*") flagsC6 1 ()
        = ⟨true, (), [Event.report (sl "C:\\a[b]\\x.txt") entryTxt 1]⟩ ∧
      forEachFile 2 2 envC6 (sl "C:\\a[b]\\*") flagsC6 1 () = ⟨true, (), []⟩ := by decide

/-- C6 amended: the enumerator reenters the Enumerator itself on the
recurse criteria at depth + 1; when the criteria contains no brace or
bracket operator and home expansion does not apply, invoking the
Pattern Expander instead is observably identical, because the Expander
then delegates to the Enumerator unchanged. -/
theorem C6_theorem {σ : Type} (efuel nfuel : Nat) (env : Env σ) (spec : Str)
    (flags : MatchFlags) (depth : Nat) (s : σ)
    (hop : countNotIn spec [braceOpenChar, '['] = spec.length)
    (hhome : env.expandHome spec = none) :
    forEachFile (efuel + 1) nfuel env spec flags depth s
      = forEachFileEnum nfuel env spec flags depth s := by
  simp only [forEachFile]
  cases hb : flags.basicExpansion with
  | true => simp
  | false => simp [hop, hhome]

/-- C6 witness: the equivalence at a concrete operator-free criteria
over the C6 environment. -/
theorem C6_witness :
    forEachFile 3 2 envC6 (sl "C:\\ab\\*") flagsC6 1 ()
      = forEachFileEnum 2 envC6 (sl "C:\\ab\\*") flagsC6 1 () :=
  C6_theorem 2 2 envC6 (sl "C:\\ab\\*") flagsC6 1 () (by decide) (by decide)

/-- C1 counterexample: the claim asserts that when the error callback
answers true only the current phase is skipped and the enumeration
continues with the next phase.  With RECURSE_BEFORE_RETURN and
RECURSE_PRESERVE_WILD over the C1 environment, the recurse phase
searches C:\d\* (which fails) while the report phase would search
C:\d\*.c (which holds a.c, as the second conjunct shows); after the
error callback answers true the whole run ends with only the error
event — the report phase never runs and nothing is reported, though
the result stays true. -/
theorem C1_counterexample :
    forEachFileEnum 2 envC1 (sl "C:\\d\\*.c") flagsC1 0 ()
        = ⟨true, (), [Event.enumError (sl "C:\\d\\*") 5 0]⟩ ∧
      envC1.findFirst (sl "C:\\d\\*.c") = some [entryFileA] := by decide

/-- C1 amended: when opening the find handle for a phase fails (with
no volume-root synthesis) and an error callback is supplied whose
answer is true, the enumerator abandons all remaining phases of the
current invocation — the break leaves the whole phase loop — while the
overall result stays true, so an outer recursion continues with its
siblings. -/
theorem C1_theorem {σ : Type} (recFn : Str → Nat → σ → EnumResult σ) (env : Env σ)
    (flags : MatchFlags) (depth : Nat) (effSpec : Str) (ctfs : Nat) (fsf : Bool)
    (parent : Str) (phase : Nat) (rest : List Nat) (s s2 : σ)
    (ec : Str → Nat → Nat → σ → Bool × σ)
    (hec : env.errorCallback = some ec)
    (hfind : phaseFindResult env
        (searchStringFor flags (computeRecursePhase flags phase) fsf parent effSpec ctfs)
        (computeRecursePhase flags phase && flags.preserveWild) = none)
    (hecr : ec (searchStringFor flags (computeRecursePhase flags phase) fsf parent
        effSpec ctfs) env.lastError depth s = (true, s2)) :
    runPhases recFn env flags depth effSpec ctfs fsf parent (phase :: rest) s
      = ⟨true, s2,
          [Event.enumError (searchStringFor flags (computeRecursePhase flags phase) fsf
            parent effSpec ctfs) env.lastError depth]⟩ := by
  simp only [runPhases, runOnePhase, hfind, hec, hecr]
  simp

/-- C1 witness: the amended behaviour at the C1 environment, with a
second phase pending that is abandoned. -/
theorem C1_witness :
    runPhases (fun _ _ st => (⟨true, st, []⟩ : EnumResult Unit)) envC1 flagsNone 0
        (sl "C:\\d\\*") 5 true (sl "C:\\d") [0, 1] ()
      = ⟨true, (),
          [Event.enumError (searchStringFor flagsNone (computeRecursePhase flagsNone 0)
            true (sl "C:\\d") (sl "C:\\d\\*") 5) envC1.lastError 0]⟩ :=
  C1_theorem _ envC1 flagsNone 0 (sl "C:\\d\\*") 5 true (sl "C:\\d") 0 [1] () () ecTrue
    rfl (by decide) rfl

/-- C5: when the find open fails, the composed full path is exactly a
bare volume root (X:\ at 3 characters or \\?\X:\ at 7) and the direct
information query of the root succeeds, the find stage yields exactly
one record whose name is empty and whose attributes, sizes and times
are the queried ones; the phase then proceeds into entry processing,
so the error callback is not invoked for this failure. -/
theorem C5_theorem {σ : Type} (env : Env σ) (str : Str) (q : FindData)
    (hfind : env.findFirst str = none)
    (hroot : (str.length = 3 ∧ isDriveLetterWithColonAndSlash str = true)
      ∨ (str.length = 7 ∧ isEscDriveColonSlash str = true))
    (hq : env.queryFileInformation str = some q) :
    phaseFindResult env str false = some [{ q with name := [] }] ∧
      ∀ (recFn : Str → Nat → σ → EnumResult σ) (flags : MatchFlags) (depth : Nat)
        (effSpec : Str) (ctfs : Nat) (fsf : Bool) (parent : Str) (phase : Nat) (s : σ),
        (computeRecursePhase flags phase && flags.preserveWild) = false →
        searchStringFor flags (computeRecursePhase flags phase) fsf parent effSpec ctfs
          = str →
        runOnePhase recFn env flags depth effSpec ctfs fsf parent phase s =
          (let r := processEntries recFn env flags depth effSpec ctfs fsf parent
            (computeRecursePhase flags phase) [{ q with name := [] }] s
           (r, !r.ok)) := by
  have hres : phaseFindResult env str false = some [{ q with name := [] }] := by
    simp only [phaseFindResult, hfind, volumeRootSynth, hq]
    rcases hroot with ⟨hlen, hdcs⟩ | ⟨hlen, hdcs⟩ <;> simp [hlen, hdcs]
  refine ⟨hres, ?_⟩
  intro recFn flags depth effSpec ctfs fsf parent phase s hwild hstr
  simp only [runOnePhase, hstr, hwild, hres]

/-- C5 witness: the volume-root synthesis for C:\ over the C5
environment. -/
theorem C5_witness :
    phaseFindResult envC5 (sl "C:\\") false = some [{ volInfo with name := [] }] ∧
      runOnePhase (fun _ _ st => (⟨true, st, []⟩ : EnumResult Unit)) envC5 flagsNone 0
          (sl "C:\\") 3 true (sl "C:") 0 () =
        (let r := processEntries (fun _ _ st => (⟨true, st, []⟩ : EnumResult Unit)) envC5
          flagsNone 0 (sl "C:\\") 3 true (sl "C:")
          (computeRecursePhase flagsNone 0) [{ volInfo with name := [] }] ()
         (r, !r.ok)) :=
  have h := C5_theorem envC5 (sl "C:\\") volInfo (by decide)
    (Or.inl ⟨by decide, by decide⟩) (by decide)
  ⟨h.1, h.2 _ flagsNone 0 (sl "C:\\") 3 true (sl "C:") 0 () (by decide) (by decide)⟩

/-! Congruence of the enumerator in the match flags: two flag words
that agree on every field the enumerator consults (the two report
filters, dot-file inclusion, link traversal, wild preservation,
directory contents, whether any recursion flag is set, and the
per-phase recurse decision) drive identical runs.  Setting both
recursion flags and setting only RECURSE_BEFORE_RETURN agree on all of
these, which settles C3. -/

theorem searchStringFor_congr (f g : MatchFlags) (hpw : f.preserveWild = g.preserveWild) :
    searchStringFor f = searchStringFor g := by
  funext rp fsf parent eff ctfs
  unfold searchStringFor
  rw [hpw]

theorem reportDecision_congr (f g : MatchFlags) (h1 : f.returnFiles = g.returnFiles)
    (h2 : f.returnDirectories = g.returnDirectories)
    (h3 : f.includeDotfiles = g.includeDotfiles) :
    reportDecision f = reportDecision g := by
  funext e
  unfold reportDecision
  rw [h1, h2, h3]

theorem linkClass_congr (f g : MatchFlags) (h : f.noLinkTraverse = g.noLinkTraverse) :
    linkClass f = linkClass g := by
  funext e
  unfold linkClass
  rw [h]

theorem shouldRecurse_congr (f g : MatchFlags) (h : f.noLinkTraverse = g.noLinkTraverse) :
    shouldRecurse f = shouldRecurse g := by
  funext rp e
  unfold shouldRecurse
  rw [linkClass_congr f g h]

theorem recurseCriteria_congr (f g : MatchFlags) (hpw : f.preserveWild = g.preserveWild) :
    recurseCriteria f = recurseCriteria g := by
  funext eff ctfs fsf n
  unfold recurseCriteria
  rw [hpw]

theorem reportStep_congr {σ : Type} (env : Env σ) (f g : MatchFlags)
    (h1 : f.returnFiles = g.returnFiles) (h2 : f.returnDirectories = g.returnDirectories)
    (h3 : f.includeDotfiles = g.includeDotfiles) :
    reportStep env f = reportStep env g := by
  funext depth parent rp e s
  unfold reportStep
  rw [reportDecision_congr f g h1 h2 h3]

theorem processEntry_congr {σ : Type} (recFn : Str → Nat → σ → EnumResult σ) (env : Env σ)
    (f g : MatchFlags) (h1 : f.returnFiles = g.returnFiles)
    (h2 : f.returnDirectories = g.returnDirectories)
    (h3 : f.includeDotfiles = g.includeDotfiles) (hpw : f.preserveWild = g.preserveWild)
    (hnlt : f.noLinkTraverse = g.noLinkTraverse) :
    processEntry recFn env f = processEntry recFn env g := by
  funext depth eff ctfs fsf parent rp e s
  unfold processEntry
  rw [shouldRecurse_congr f g hnlt, recurseCriteria_congr f g hpw,
    reportStep_congr env f g h1 h2 h3]

theorem processEntries_congr {σ : Type} (recFn : Str → Nat → σ → EnumResult σ)
    (env : Env σ) (f g : MatchFlags) (h1 : f.returnFiles = g.returnFiles)
    (h2 : f.returnDirectories = g.returnDirectories)
    (h3 : f.includeDotfiles = g.includeDotfiles) (hpw : f.preserveWild = g.preserveWild)
    (hnlt : f.noLinkTraverse = g.noLinkTraverse) :
    processEntries recFn env f = processEntries recFn env g := by
  funext depth eff ctfs fsf parent rp
  have haux : ∀ (l : List FindData) (s : σ),
      processEntries recFn env f depth eff ctfs fsf parent rp l s
        = processEntries recFn env g depth eff ctfs fsf parent rp l s := by
    intro l
    induction l with
    | nil => intro s; rfl
    | cons e rest ih =>
      intro s
      simp only [processEntries, processEntry_congr recFn env f g h1 h2 h3 hpw hnlt, ih]
  funext l s
  exact haux l s

theorem runOnePhase_congr {σ : Type} (recFn : Str → Nat → σ → EnumResult σ) (env : Env σ)
    (f g : MatchFlags) (h1 : f.returnFiles = g.returnFiles)
    (h2 : f.returnDirectories = g.returnDirectories)
    (h3 : f.includeDotfiles = g.includeDotfiles) (hpw : f.preserveWild = g.preserveWild)
    (hnlt : f.noLinkTraverse = g.noLinkTraverse)
    (hcrp : computeRecursePhase f = computeRecursePhase g) :
    runOnePhase recFn env f = runOnePhase recFn env g := by
  funext depth eff ctfs fsf parent phase s
  simp only [runOnePhase, hcrp, hpw, searchStringFor_congr f g hpw,
    processEntries_congr recFn env f g h1 h2 h3 hpw hnlt]

theorem runPhases_congr {σ : Type} (recFn : Str → Nat → σ → EnumResult σ) (env : Env σ)
    (f g : MatchFlags) (h1 : f.returnFiles = g.returnFiles)
    (h2 : f.returnDirectories = g.returnDirectories)
    (h3 : f.includeDotfiles = g.includeDotfiles) (hpw : f.preserveWild = g.preserveWild)
    (hnlt : f.noLinkTraverse = g.noLinkTraverse)
    (hcrp : computeRecursePhase f = computeRecursePhase g) :
    runPhases recFn env f = runPhases recFn env g := by
  funext depth eff ctfs fsf parent
  have haux : ∀ (ps : List Nat) (s : σ),
      runPhases recFn env f depth eff ctfs fsf parent ps s
        = runPhases recFn env g depth eff ctfs fsf parent ps s := by
    intro ps
    induction ps with
    | nil => intro s; rfl
    | cons p rest ih =>
      intro s
      simp only [runPhases,
        runOnePhase_congr recFn env f g h1 h2 h3 hpw hnlt hcrp, ih]
  funext ps s
  exact haux ps s

theorem phasesOf_congr (f g : MatchFlags)
    (hany : (f.recurseAfter || f.recurseBefore) = (g.recurseAfter || g.recurseBefore)) :
    phasesOf f = phasesOf g := by
  unfold phasesOf
  rw [hany]

theorem forEachFileEnum_congr {σ : Type} (f g : MatchFlags)
    (h1 : f.returnFiles = g.returnFiles) (h2 : f.returnDirectories = g.returnDirectories)
    (h3 : f.includeDotfiles = g.includeDotfiles) (hpw : f.preserveWild = g.preserveWild)
    (hnlt : f.noLinkTraverse = g.noLinkTraverse)
    (hdc : f.directoryContents = g.directoryContents)
    (hany : (f.recurseAfter || f.recurseBefore) = (g.recurseAfter || g.recurseBefore))
    (hcrp : computeRecursePhase f = computeRecursePhase g) :
    ∀ (fuel : Nat) (env : Env σ) (spec : Str) (depth : Nat) (s : σ),
      forEachFileEnum fuel env spec f depth s = forEachFileEnum fuel env spec g depth s := by
  intro fuel
  induction fuel with
  | zero => intro env spec depth s; rfl
  | succ n ih =>
    intro env spec depth s
    have hrec : (fun sp d st => forEachFileEnum n env sp f d st)
        = (fun sp d st => forEachFileEnum n env sp g d st) := by
      funext sp d st
      exact ih env sp d st
    simp only [forEachFileEnum, hdc, hany, hrec, phasesOf_congr f g hany,
      runPhases_congr _ env f g h1 h2 h3 hpw hnlt hcrp]

/-- C3: with both RECURSE_BEFORE_RETURN and RECURSE_AFTER_RETURN set
the enumerator plans exactly two phases, of which phase 0 recurses and
phase 1 reports; and for every environment, specification, other flag
values, fuel, depth and state, the run is identical — the same result,
final state and event trace, hence the same callback invocations in
the same order — to the run with RECURSE_BEFORE_RETURN alone. -/
theorem C3_theorem :
    ∀ (σ : Type) (fuel : Nat) (env : Env σ) (spec : Str)
      (rf rd dc pw idf nlt be : Bool) (depth : Nat) (s : σ),
      phasesOf ⟨rf, rd, dc, true, true, pw, idf, nlt, be⟩ = [0, 1] ∧
        computeRecursePhase ⟨rf, rd, dc, true, true, pw, idf, nlt, be⟩ 0 = true ∧
        computeRecursePhase ⟨rf, rd, dc, true, true, pw, idf, nlt, be⟩ 1 = false ∧
        forEachFileEnum fuel env spec ⟨rf, rd, dc, true, true, pw, idf, nlt, be⟩ depth s
          = forEachFileEnum fuel env spec ⟨rf, rd, dc, true, false, pw, idf, nlt, be⟩
            depth s := by
  intro σ fuel env spec rf rd dc pw idf nlt be depth s
  refine ⟨rfl, rfl, rfl, ?_⟩
  exact forEachFileEnum_congr ⟨rf, rd, dc, true, true, pw, idf, nlt, be⟩
    ⟨rf, rd, dc, true, false, pw, idf, nlt, be⟩ rfl rfl rfl rfl rfl rfl rfl
    (funext fun p => rfl) fuel env spec depth s

/-! Trace lemmas towards C4: with NO_LINK_TRAVERSE set, no recurse
event of any run descends into a mount-point or symlink reparse
entry. -/

theorem reportStep_linkFree {σ : Type} (env : Env σ) (flags : MatchFlags) (depth : Nat)
    (parent : Str) (rp : Bool) (e : FindData) (s : σ) :
    ∀ ev ∈ (reportStep env flags depth parent rp e s).trace,
      eventRecursesIntoLink ev = false := by
  intro ev hev
  simp only [reportStep] at hev
  split at hev
  · split at hev
    · simp at hev; subst hev; rfl
    · split at hev
      · simp at hev; subst hev; rfl
      · simp at hev; subst hev; rfl
  · simp at hev

theorem processEntry_linkFree {σ : Type} (recFn : Str → Nat → σ → EnumResult σ)
    (env : Env σ) (flags : MatchFlags) (depth : Nat) (eff : Str) (ctfs : Nat) (fsf : Bool)
    (parent : Str) (rp : Bool) (e : FindData) (s : σ)
    (hnl : flags.noLinkTraverse = true)
    (hrec : ∀ sp d st, ∀ ev ∈ (recFn sp d st).trace, eventRecursesIntoLink ev = false) :
    ∀ ev ∈ (processEntry recFn env flags depth eff ctfs fsf parent rp e s).trace,
      eventRecursesIntoLink ev = false := by
  intro ev hev
  simp only [processEntry] at hev
  split at hev
  case isTrue hsr =>
    have hlc : linkClass flags e = false := by
      simp only [shouldRecurse, Bool.and_eq_true, Bool.not_eq_true'] at hsr
      exact hsr.2
    have hattr : (hasAttr e.attrs attrReparsePoint &&
        (decide (e.reserved0 = tagMountPoint) || decide (e.reserved0 = tagSymlink)))
          = false := by
      simp only [linkClass, hnl, Bool.true_and] at hlc
      exact hlc
    split at hev
    · simp at hev
      rcases hev with hev | hev | hev
      · subst hev
        simp only [eventRecursesIntoLink]
        exact hattr
      · exact hrec _ _ _ ev hev
      · exact reportStep_linkFree env flags depth parent rp e _ ev hev
    · simp at hev
      rcases hev with hev | hev
      · subst hev
        simp only [eventRecursesIntoLink]
        exact hattr
      · exact hrec _ _ _ ev hev
  case isFalse hsr =>
    exact reportStep_linkFree env flags depth parent rp e s ev hev

theorem processEntries_linkFree {σ : Type} (recFn : Str → Nat → σ → EnumResult σ)
    (env : Env σ) (flags : MatchFlags) (depth : Nat) (eff : Str) (ctfs : Nat) (fsf : Bool)
    (parent : Str) (rp : Bool) (hnl : flags.noLinkTraverse = true)
    (hrec : ∀ sp d st, ∀ ev ∈ (recFn sp d st).trace, eventRecursesIntoLink ev = false) :
    ∀ (l : List FindData) (s : σ),
      ∀ ev ∈ (processEntries recFn env flags depth eff ctfs fsf parent rp l s).trace,
        eventRecursesIntoLink ev = false := by
  intro l
  induction l with
  | nil => intro s ev hev; simp [processEntries] at hev
  | cons e rest ih =>
    intro s ev hev
    simp only [processEntries] at hev
    split at hev
    · simp at hev
      rcases hev with hev | hev
      · exact processEntry_linkFree recFn env flags depth eff ctfs fsf parent rp e s
          hnl hrec ev hev
      · exact ih _ ev hev
    · exact processEntry_linkFree recFn env flags depth eff ctfs fsf parent rp e s
        hnl hrec ev hev

theorem runOnePhase_linkFree {σ : Type} (recFn : Str → Nat → σ → EnumResult σ)
    (env : Env σ) (flags : MatchFlags) (depth : Nat) (eff : Str) (ctfs : Nat) (fsf : Bool)
    (parent : Str) (phase : Nat) (s : σ) (hnl : flags.noLinkTraverse = true)
    (hrec : ∀ sp d st, ∀ ev ∈ (recFn sp d st).trace, eventRecursesIntoLink ev = false) :
    ∀ ev ∈ (runOnePhase recFn env flags depth eff ctfs fsf parent phase s).1.trace,
      eventRecursesIntoLink ev = false := by
  intro ev hev
  simp only [runOnePhase] at hev
  split at hev
  · simp at hev
    exact processEntries_linkFree recFn env flags depth eff ctfs fsf parent _ hnl hrec
      _ s ev hev
  · split at hev
    · simp at hev; subst hev; rfl
    · simp at hev

theorem runPhases_linkFree {σ : Type} (recFn : Str → Nat → σ → EnumResult σ)
    (env : Env σ) (flags : MatchFlags) (depth : Nat) (eff : Str) (ctfs : Nat) (fsf : Bool)
    (parent : Str) (hnl : flags.noLinkTraverse = true)
    (hrec : ∀ sp d st, ∀ ev ∈ (recFn sp d st).trace, eventRecursesIntoLink ev = false) :
    ∀ (ps : List Nat) (s : σ),
      ∀ ev ∈ (runPhases recFn env flags depth eff ctfs fsf parent ps s).trace,
        eventRecursesIntoLink ev = false := by
  intro ps
  induction ps with
  | nil => intro s ev hev; simp [runPhases] at hev
  | cons p rest ih =>
    intro s ev hev
    simp only [runPhases] at hev
    split at hev
    · exact runOnePhase_linkFree recFn env flags depth eff ctfs fsf parent p s hnl hrec
        ev hev
    · simp at hev
      rcases hev with hev | hev
      · exact runOnePhase_linkFree recFn env flags depth eff ctfs fsf parent p s hnl hrec
          ev hev
      · exact ih _ ev hev

/-- C4: with NO_LINK_TRAVERSE set, (first) no run of the enumerator
ever emits a recurse event whose entry carries the reparse bit with
the mount-point or symlink tag — recursion never descends into such an
entry at any depth — and (second) such an entry is still reported in a
report phase whenever it passes the dot-file and kind filters: its
per-entry processing emits exactly the report event for it. -/
theorem C4_theorem {σ : Type} (fuel : Nat) (env : Env σ) (spec : Str)
    (flags : MatchFlags) (depth : Nat) (s : σ) (hnl : flags.noLinkTraverse = true) :
    (∀ ev ∈ (forEachFileEnum fuel env spec flags depth s).trace,
        eventRecursesIntoLink ev = false) ∧
      (∀ (recFn : Str → Nat → σ → EnumResult σ) (eff : Str) (ctfs : Nat) (fsf : Bool)
        (parent : Str) (e : FindData) (st : σ),
        linkClass flags e = true →
        reportDecision flags e = true →
        (processEntry recFn env flags depth eff ctfs fsf parent false e st).trace
          = [Event.report (parent ++ ['\\'] ++ e.name) e depth]) := by
  constructor
  · induction fuel generalizing spec depth s with
    | zero => intro ev hev; simp [forEachFileEnum] at hev
    | succ n ih =>
      intro ev hev
      simp only [forEachFileEnum] at hev
      split at hev
      · simp at hev
      · split at hev
        · simp at hev
        · exact runPhases_linkFree _ env flags depth _ _ _ _ hnl
            (fun sp d st => ih sp d st) _ s ev hev
  · intro recFn eff ctfs fsf parent e st hlink hrep
    have hsr : shouldRecurse flags false e = false := by
      simp [shouldRecurse]
    simp only [processEntry, hsr, Bool.false_eq_true, if_false]
    simp only [reportStep, hrep, Bool.not_false, Bool.and_self, if_true]
    split
    · rfl
    · split <;> rfl

/-- C4 witness: over the C4 environment (one symlink-reparse directory
entry under C:\d, NO_LINK_TRAVERSE with RECURSE_BEFORE_RETURN and
RETURN_DIRECTORIES) no recurse event descends into the link, and the
report-phase processing of the link entry still reports it. -/
theorem C4_witness :
    (∀ ev ∈ (forEachFileEnum 2 envC4 (sl "C:\\d\\*") flagsC4 0 ()).trace,
        eventRecursesIntoLink ev = false) ∧
      (processEntry (fun _ _ st => (⟨true, st, []⟩ : EnumResult Unit)) envC4 flagsC4 0
          (sl "C:\\d\\*") 5 true (sl "C:\\d") false entryLink ()).trace
        = [Event.report ((sl "C:\\d") ++ ['\\'] ++ entryLink.name) entryLink 0] :=
  have h := C4_theorem 2 envC4 (sl "C:\\d\\*") flagsC4 0 () rfl
  ⟨h.1, h.2 _ (sl "C:\\d\\*") 5 true (sl "C:\\d") entryLink () (by decide) (by decide)⟩

/-! Lemmas towards C9, the drive-letter round trip. -/

/-- Splitting a list at a valid index: the take, the element there and
the drop reassemble the list. -/
theorem take_getD_drop {α : Type} (d : α) :
    ∀ (l : List α) (j : Nat), j < l.length →
      l.take j ++ l.getD j d :: l.drop (j + 1) = l := by
  intro l
  induction l with
  | nil => intro j h; simp at h
  | cons x xs ih =>
    intro j h
    cases j with
    | zero => rfl
    | succ j2 =>
      simp only [List.take_succ_cons, List.getD_cons_succ, List.drop_succ_cons,
        List.cons_append, List.cons.injEq, true_and]
      exact ih j2 (by simpa using h)

/-- Reassembling a string from a drive letter slice, the colon, the
path-from-root slice, the final backslash and the file-name slice. -/
theorem drive_reconstruct (E : Str) (j : Nat) (hj2 : 2 ≤ j) (hjlen : j < E.length)
    (hcolon : E.getD 1 ' ' = ':') (hbs : E.getD j ' ' = '\\') :
    E.take 1 ++ [':'] ++ (E.drop 2).take (j - 2) ++ ['\\'] ++ E.drop (j + 1) = E := by
  cases E with
  | nil => simp at hjlen
  | cons a E1 =>
    cases E1 with
    | nil =>
      simp only [List.length_cons, List.length_nil] at hjlen
      omega
    | cons b t =>
      obtain ⟨j2, rfl⟩ : ∃ j2, j = j2 + 2 := ⟨j - 2, by omega⟩
      simp only [List.getD_cons_succ, List.getD_cons_zero] at hcolon hbs
      subst hcolon
      simp only [List.take_succ_cons, List.take_zero, List.drop_succ_cons, List.drop_zero,
        Nat.add_sub_cancel, List.cons_append, List.nil_append, List.cons.injEq, true_and]
      have hlt : j2 < t.length := by
        simp only [List.length_cons] at hjlen
        omega
      have := take_getD_drop ' ' t j2 hlt
      rw [hbs] at this
      simpa using this

/-- When the backwards file scan reports a file, some index at or
below its start holds a backslash, the file name is the suffix after
that index and the parent is the prefix before it. -/
theorem fileScanAux_char (e : Str) :
    ∀ (i : Nat) (ef : Bool) (ex : Str),
      (fileScanAux e i ef ex).fileFound = true →
      ∃ j, j ≤ i ∧ e.getD j ' ' = '\\' ∧
        (fileScanAux e i ef ex).fullFileName = e.drop (j + 1) ∧
        (fileScanAux e i ef ex).parentName = e.take j := by
  intro i
  induction i with
  | zero =>
    intro ef ex h
    simp only [fileScanAux] at h ⊢
    split at h
    case isTrue hc =>
      refine ⟨0, Nat.le_refl 0, of_decide_eq_true hc, ?_⟩
      rw [if_pos hc]
      exact ⟨rfl, rfl⟩
    case isFalse hc => simp at h
  | succ i2 ih =>
    intro ef ex h
    simp only [fileScanAux] at h ⊢
    split at h
    case isTrue hc =>
      refine ⟨i2 + 1, Nat.le_refl _, of_decide_eq_true hc, ?_⟩
      rw [if_pos hc]
      exact ⟨rfl, rfl⟩
    case isFalse hc =>
      obtain ⟨j, hj, hbs, hfull, hpar⟩ := ih _ _ h
      refine ⟨j, Nat.le_succ_of_le hj, hbs, ?_⟩
      rw [if_neg hc]
      exact ⟨hfull, hpar⟩

/-- The applyShare adjustment never touches the drive letter. -/
theorem applyShare_drive (orig entire : Str) (c : PathComponents) (start : Nat) :
    (applyShare orig entire c start).driveLetter = c.driveLetter := by
  simp only [applyShare]
  split
  · split
    · rfl
    · split <;> rfl
  · rfl

/-- The round trip for the drive-letter branch: for a path starting
with a drive letter, a colon and a separator, whose file scan found a
file name, the components the decomposer computes reassemble the
path. -/
theorem C9_core (E : Str) (hdcs : isDriveLetterWithColonAndSlash E = true)
    (h3 : (fileScan E).fileFound = true) :
    E.take 1 ++ [':'] ++ (E.drop 2).take ((E.length - 2) -
        (if (fileScan E).fileFound = true then (fileScan E).fullFileName.length + 1 else 0))
      ++ ['\\'] ++ (fileScan E).fullFileName = E := by
  simp only [isDriveLetterWithColonAndSlash, Bool.and_eq_true, decide_eq_true_eq] at hdcs
  obtain ⟨⟨⟨hlen, hletter⟩, hcolon⟩, hsep⟩ := hdcs
  have hlen0 : E.length ≠ 0 := by omega
  have hfs : fileScan E = fileScanAux E (E.length - 1) false [] := by
    simp [fileScan, hlen0]
  rw [if_pos h3]
  rw [hfs] at h3 ⊢
  obtain ⟨j, hj, hbs, hfull, hpar⟩ := fileScanAux_char E (E.length - 1) false [] h3
  rw [hfull, List.length_drop]
  have hjlen : j < E.length := by omega
  have hj2 : 2 ≤ j := by
    rcases j with _ | _ | j2
    · rw [hbs] at hletter
      exact absurd hletter (by decide)
    · rw [hbs] at hcolon
      exact absurd hcolon (by decide)
    · omega
  have harith : E.length - 2 - (E.length - (j + 1) + 1) = j - 2 := by omega
  rw [harith]
  exact drive_reconstruct E j hj2 hjlen hcolon hbs

/-- C9: for every path decomposed without the long-path switch whose
drive-letter branch applied (the drive letter is present) and whose
file scan found a file name, concatenating drive, colon, pathFromRoot,
a backslash and fullFileName reconstructs the entire natural path. -/
theorem C9_theorem (orig : Str) (c : PathComponents)
    (h1 : decompose orig false = some c)
    (h2 : c.driveLetter ≠ [])
    (h3 : c.fileFound = true) :
    c.driveLetter ++ [':'] ++ c.pathFromRoot ++ ['\\'] ++ c.fullFileName = c.entire := by
  simp only [decompose, Bool.false_eq_true, if_false] at h1
  -- the first split resolves the keep boundary (3 for a drive root,
  -- 0 otherwise); the second resolves the drive-letter test on the
  -- trimmed path; the third, in its negative branch, the UNC test
  split at h1 <;>
    (split at h1
     case isTrue =>
       rename_i hdcs
       rw [Option.some.injEq] at h1
       subst h1
       exact C9_core _ hdcs h3
     case isFalse =>
       split at h1
       · rw [Option.some.injEq] at h1
         subst h1
         rw [applyShare_drive] at h2
         exact absurd rfl h2
       · rw [Option.some.injEq] at h1
         subst h1
         exact absurd rfl h2)

/-- C9 witness: the round trip at C:\a\b.txt. -/
theorem C9_witness :
    decompose (sl "C:\\a\\b.txt") false = some pathC9 ∧
      pathC9.driveLetter ++ [':'] ++ pathC9.pathFromRoot ++ ['\\'] ++ pathC9.fullFileName
        = pathC9.entire :=
  ⟨by decide, C9_theorem (sl "C:\\a\\b.txt") pathC9 (by decide) (by decide) (by decide)⟩

end YoriSpec
